import Mathlib

/-!
Shallow embedding of `borrow-complex-key-example` (src/src/lib.rs).

The repository defines an owned key type `OwnedKey { s: String, bytes: Vec<u8> }`
and a borrowed key type `BorrowedKey { s: &str, bytes: &[u8] }`, a trait
`Key` with one method `key(&self) -> BorrowedKey` implemented by both shapes,
`Borrow<dyn Key>` for `OwnedKey`, and `PartialEq`/`Eq`/`PartialOrd`/`Ord`/`Hash`
for `dyn Key` that forward to the projection produced by `key()`.

Modelling choices:
  - `String` stays a Lean `String`; its Rust derived ordering (lexicographic on
    UTF-8 bytes) coincides with lexicographic ordering on the code-point
    sequence, which is how `strCmp` below compares.
  - `Vec<u8>` / `&[u8]` become `List Nat` (each element a byte value).
  - The derived `PartialEq`/`PartialOrd`/`Ord` implementations are written out
    field-by-field exactly as Rust's derive expands them (first field `s`,
    then `bytes`).
  - A `&dyn Key` trait object is observable only through its `key()` method,
    so it is embedded as `DynKey`, a record of the projection; the `dyn Key`
    comparison impls then forward to `BorrowedKey`'s derived comparisons just
    as lines 160-197 of lib.rs do.
  - Hashing is modelled by the stream of primitive values a `Hash` impl writes
    to a `Hasher` (string content plus the `0xff` terminator for `str`, a
    length prefix plus the elements for a byte slice), with the hasher itself
    an arbitrary fold over that stream.
  - `HashSet<OwnedKey>` is modelled as a `List OwnedKey`; `contains` with a
    `&dyn Key` probe finds an element whose `Borrow<dyn Key>` view hashes like
    the probe and compares equal to it via the `dyn Key` equality.
-/

/-- `Ordering`-valued comparison of natural numbers, mirroring `u8: Ord` and
the per-code-point steps of `str: Ord`. -/
def natCmp (a b : Nat) : Ordering :=
  if a < b then Ordering.lt else if a = b then Ordering.eq else Ordering.gt

/-- Lexicographic comparison of element lists, mirroring the derived
`Ord for Vec<u8>` / `Ord for &[u8]`: element by element, a proper prefix
orders before any extension of it. -/
def listCmp : List Nat → List Nat → Ordering
  | [], [] => Ordering.eq
  | [], _ :: _ => Ordering.lt
  | _ :: _, [] => Ordering.gt
  | a :: as, b :: bs =>
    match natCmp a b with
    | Ordering.eq => listCmp as bs
    | o => o

/-- `str: Ord`: lexicographic comparison of the character sequences
(code-point order, which agrees with Rust's UTF-8 byte order). -/
def strCmp (a b : String) : Ordering :=
  listCmp (a.data.map Char.toNat) (b.data.map Char.toNat)

/-- `OwnedKey` (lib.rs lines 65-69): a heap-backed text field and a
heap-backed byte-sequence field. -/
structure OwnedKey where
  s : String
  bytes : List Nat
deriving DecidableEq

/-- `BorrowedKey` (lib.rs lines 74-78): reference-composed view with the same
two fields; in the embedding references are represented by their content. -/
structure BorrowedKey where
  s : String
  bytes : List Nat
deriving DecidableEq

/-- Derived `PartialEq for OwnedKey`: field-wise, `s` then `bytes`. -/
def OwnedKey.beq (a b : OwnedKey) : Bool :=
  a.s == b.s && a.bytes == b.bytes

/-- Derived `PartialEq for BorrowedKey`: field-wise, `s` then `bytes`. -/
def BorrowedKey.beq (a b : BorrowedKey) : Bool :=
  a.s == b.s && a.bytes == b.bytes

/-- Derived `Ord for OwnedKey`: compare `s`; on `Equal` compare `bytes`. -/
def OwnedKey.cmp (a b : OwnedKey) : Ordering :=
  match strCmp a.s b.s with
  | Ordering.eq => listCmp a.bytes b.bytes
  | o => o

/-- Derived `PartialOrd for OwnedKey`: chain the fields' `partial_cmp`
results; for `String` and `Vec<u8>` those are `Some` of the total order. -/
def OwnedKey.partialCmp (a b : OwnedKey) : Option Ordering :=
  match (some (strCmp a.s b.s) : Option Ordering) with
  | some Ordering.eq => some (listCmp a.bytes b.bytes)
  | o => o

/-- Derived `Ord for BorrowedKey`: compare `s`; on `Equal` compare `bytes`. -/
def BorrowedKey.cmp (a b : BorrowedKey) : Ordering :=
  match strCmp a.s b.s with
  | Ordering.eq => listCmp a.bytes b.bytes
  | o => o

/-- Derived `PartialOrd for BorrowedKey`. -/
def BorrowedKey.partialCmp (a b : BorrowedKey) : Option Ordering :=
  match (some (strCmp a.s b.s) : Option Ordering) with
  | some Ordering.eq => some (listCmp a.bytes b.bytes)
  | o => o

/-- `impl Key for OwnedKey` (lib.rs lines 119-126): `key()` returns a
`BorrowedKey` whose fields view `self.s` and `self.bytes` directly. -/
def OwnedKey.key (o : OwnedKey) : BorrowedKey :=
  { s := o.s, bytes := o.bytes }

/-- `impl Key for BorrowedKey` (lib.rs lines 128-136): `key()` returns
`*self`, a structural copy. -/
def BorrowedKey.key (b : BorrowedKey) : BorrowedKey :=
  b

/-- A `&dyn Key` trait object: observable only through its `key()` method,
so it is embedded by the projection that method returns. -/
structure DynKey where
  key : BorrowedKey

/-- Coercion of `&OwnedKey` to `&dyn Key` (the `self` coercion inside
`Borrow<dyn Key> for OwnedKey`, lib.rs lines 144-149). -/
def OwnedKey.toDyn (o : OwnedKey) : DynKey :=
  { key := o.key }

/-- Coercion of `&BorrowedKey` to `&dyn Key` (the implicit unsizing at the
`contains` call boundary, lib.rs line 220). -/
def BorrowedKey.toDyn (b : BorrowedKey) : DynKey :=
  { key := b.key }

/-- `impl PartialEq for dyn Key` (lib.rs lines 160-166):
`self.key().eq(&other.key())`. -/
def DynKey.beq (a b : DynKey) : Bool :=
  a.key.beq b.key

/-- `impl PartialOrd for dyn Key` (lib.rs lines 177-181):
`self.key().partial_cmp(&other.key())`. -/
def DynKey.partialCmp (a b : DynKey) : Option Ordering :=
  BorrowedKey.partialCmp a.key b.key

/-- `impl Ord for dyn Key` (lib.rs lines 183-187):
`self.key().cmp(&other.key())`. -/
def DynKey.cmp (a b : DynKey) : Ordering :=
  BorrowedKey.cmp a.key b.key

/-- `Hash for str`: write the content, then the `0xff` terminator byte. -/
def strHashWrites (s : String) : List Nat :=
  s.data.map Char.toNat ++ [255]

/-- `Hash for Vec<u8>` / `&[u8]`: write the length, then the elements. -/
def bytesHashWrites (bs : List Nat) : List Nat :=
  bs.length :: bs

/-- Derived `Hash for OwnedKey`: hash `s`, then `bytes`, in declaration
order; modelled by the concatenated write stream. -/
def OwnedKey.hashWrites (o : OwnedKey) : List Nat :=
  strHashWrites o.s ++ bytesHashWrites o.bytes

/-- Derived `Hash for BorrowedKey`: same field order, same element impls. -/
def BorrowedKey.hashWrites (b : BorrowedKey) : List Nat :=
  strHashWrites b.s ++ bytesHashWrites b.bytes

/-- `impl Hash for dyn Key` (lib.rs lines 193-197): `self.key().hash(state)`. -/
def DynKey.hashWrites (d : DynKey) : List Nat :=
  d.key.hashWrites

/-- A hasher instance: an initial state, a state-transition per written value,
and a finish step, applied to a write stream (models `DefaultHasher::new()`,
`Hasher::write*`, `Hasher::finish`). -/
def hashOutput (write : Nat → Nat → Nat) (finish : Nat → Nat) (init : Nat)
    (ws : List Nat) : Nat :=
  finish (ws.foldl write init)

/-- `HashSet::insert` on the `List OwnedKey` model: a no-op when an equal
element (under `OwnedKey`'s own equality) is already present. -/
def insertKey (s : List OwnedKey) (o : OwnedKey) : List OwnedKey :=
  if s.any (fun x => x.beq o) then s else o :: s

/-- One probe comparison inside `HashSet::contains::<dyn Key>`: the stored
element's `Borrow<dyn Key>` view must hash like the probe (bucket agreement)
and compare equal to it under the `dyn Key` equality. -/
def probeMatch (o : OwnedKey) (q : DynKey) : Bool :=
  o.toDyn.hashWrites == q.hashWrites && DynKey.beq o.toDyn q

/-- `HashSet::contains` with a `&dyn Key` probe (lib.rs line 220): some
stored element matches the probe. -/
def containsDyn (s : List OwnedKey) (q : DynKey) : Bool :=
  s.any (fun o => probeMatch o q)

/-! ### Helper lemmas -/

/-- A `BorrowedKey` whose fields equal an `OwnedKey`'s fields erases to the
same `dyn Key` view. -/
theorem toDyn_eq_of_fields (o : OwnedKey) (b : BorrowedKey)
    (h1 : b.s = o.s) (h2 : b.bytes = o.bytes) :
    BorrowedKey.toDyn b = OwnedKey.toDyn o := by
  cases o
  cases b
  dsimp only at h1 h2
  subst h1
  subst h2
  rfl

/-- The `dyn Key` equality between an owned element's view and a borrowed
probe's view holds exactly when the field contents coincide. -/
theorem dynBeq_toDyn_iff (o : OwnedKey) (b : BorrowedKey) :
    DynKey.beq o.toDyn b.toDyn = true ↔ (b.s = o.s ∧ b.bytes = o.bytes) := by
  constructor
  · intro h
    simp only [DynKey.beq, OwnedKey.toDyn, BorrowedKey.toDyn, OwnedKey.key,
      BorrowedKey.key, BorrowedKey.beq, Bool.and_eq_true, beq_iff_eq] at h
    exact ⟨h.1.symm, h.2.symm⟩
  · rintro ⟨h1, h2⟩
    rw [toDyn_eq_of_fields o b h1 h2]
    simp [DynKey.beq, BorrowedKey.beq]

/-- A stored `OwnedKey` matches a `BorrowedKey` probe inside `contains`
exactly when the field contents coincide. -/
theorem probeMatch_iff (o : OwnedKey) (b : BorrowedKey) :
    probeMatch o b.toDyn = true ↔ (b.s = o.s ∧ b.bytes = o.bytes) := by
  constructor
  · intro h
    exact (dynBeq_toDyn_iff o b).mp ((Bool.and_eq_true _ _).mp h).2
  · rintro ⟨h1, h2⟩
    rw [toDyn_eq_of_fields o b h1 h2]
    simp [probeMatch, DynKey.beq, BorrowedKey.beq]

/-! ### Claim theorems -/

/-- C1. Equality consistency: for every pair of `OwnedKey` values, the derived
owned equality gives the same boolean as the `dyn Key` forwarded equality of
their erased views, which compares the projected `BorrowedKey` field-wise. -/
theorem consistent_eq (o1 o2 : OwnedKey) :
    OwnedKey.beq o1 o2 = DynKey.beq o1.toDyn o2.toDyn :=
  rfl

/-- C2. Ordering consistency: for every pair of `OwnedKey` values, the derived
lexicographic partial-order and total-order comparisons on the owned values
coincide with the `dyn Key` forwarded comparisons of their erased views. -/
theorem consistent_ord (o1 o2 : OwnedKey) :
    OwnedKey.partialCmp o1 o2 = DynKey.partialCmp o1.toDyn o2.toDyn ∧
    OwnedKey.cmp o1 o2 = DynKey.cmp o1.toDyn o2.toDyn :=
  ⟨rfl, rfl⟩

/-- C3. Hash consistency: feeding an `OwnedKey` to any hasher instance
(arbitrary initial state, write transition and finish step) produces the same
output as feeding its erased `dyn Key` view to an identically initialized
hasher, because both emit the same write stream. -/
theorem consistent_hash (write : Nat → Nat → Nat) (finish : Nat → Nat)
    (init : Nat) (o : OwnedKey) :
    hashOutput write finish init (OwnedKey.hashWrites o) =
      hashOutput write finish init (DynKey.hashWrites o.toDyn) :=
  rfl

/-- C5. Projection linchpin invariant: for every `OwnedKey`, the `Key::key`
projection is a total pure function returning a `BorrowedKey` whose text and
byte-sequence content equal the owned fields' content. -/
theorem projection_linchpin (o : OwnedKey) :
    (OwnedKey.key o).s = o.s ∧ (OwnedKey.key o).bytes = o.bytes :=
  ⟨rfl, rfl⟩

/-- C7. Concrete ordering scenario: `{s:"a", bytes:[]}` orders strictly
before `{s:"b", bytes:[]}` (text dominates), and `{s:"a", bytes:[1]}` orders
strictly before `{s:"a", bytes:[1,0]}` (shorter prefix is less on a text
tie); the same results hold through the erased `dyn Key` views. -/
theorem ordering_scenario :
    OwnedKey.cmp { s := "a", bytes := [] } { s := "b", bytes := [] } =
      Ordering.lt ∧
    OwnedKey.cmp { s := "a", bytes := [1] } { s := "a", bytes := [1, 0] } =
      Ordering.lt ∧
    DynKey.cmp (OwnedKey.toDyn { s := "a", bytes := [] })
      (OwnedKey.toDyn { s := "b", bytes := [] }) = Ordering.lt ∧
    DynKey.cmp (OwnedKey.toDyn { s := "a", bytes := [1] })
      (OwnedKey.toDyn { s := "a", bytes := [1, 0] }) = Ordering.lt := by
  refine ⟨?_, ?_, ?_, ?_⟩ <;> decide

/-- C8. Borrowed projection is the identity: `BorrowedKey`'s `Key::key`
returns a structural copy equal to its input, and projection is idempotent
on both shapes. -/
theorem borrowed_projection_identity :
    (∀ b : BorrowedKey, BorrowedKey.key b = b) ∧
    (∀ b : BorrowedKey, BorrowedKey.key (BorrowedKey.key b) =
      BorrowedKey.key b) ∧
    (∀ o : OwnedKey, BorrowedKey.key (OwnedKey.key o) = OwnedKey.key o) :=
  ⟨fun _ => rfl, fun _ => rfl, fun _ => rfl⟩

/-- C4. Substitution law (positive lookup): after inserting an `OwnedKey`
into the container, a membership query with a `BorrowedKey` whose text and
byte-sequence fields are value-equal to the owned key's fields reports
membership true. -/
theorem substitution_lookup (s : List OwnedKey) (o : OwnedKey)
    (b : BorrowedKey) (hs : b.s = o.s) (hb : b.bytes = o.bytes) :
    containsDyn (insertKey s o) b.toDyn = true := by
  unfold containsDyn insertKey
  by_cases h : s.any (fun x => x.beq o) = true
  · rw [if_pos h]
    obtain ⟨x, hx, hxo⟩ := List.any_eq_true.mp h
    have hfields : x.s = o.s ∧ x.bytes = o.bytes := by
      have := (Bool.and_eq_true _ _).mp hxo
      exact ⟨beq_iff_eq.mp this.1, beq_iff_eq.mp this.2⟩
    refine List.any_eq_true.mpr ⟨x, hx, ?_⟩
    exact (probeMatch_iff x b).mpr
      ⟨hs.trans hfields.1.symm, hb.trans hfields.2.symm⟩
  · rw [if_neg h]
    refine List.any_eq_true.mpr ⟨o, List.mem_cons_self o s, ?_⟩
    exact (probeMatch_iff o b).mpr ⟨hs, hb⟩

/-- C4 witness: insert `{s:"foo", bytes:[0x61,0x62,0x63]}` into an empty
container; querying with the field-equal `BorrowedKey` returns true. -/
theorem substitution_lookup_witness :
    containsDyn (insertKey [] { s := "foo", bytes := [0x61, 0x62, 0x63] })
      (BorrowedKey.toDyn { s := "foo", bytes := [0x61, 0x62, 0x63] }) =
      true :=
  substitution_lookup [] { s := "foo", bytes := [0x61, 0x62, 0x63] }
    { s := "foo", bytes := [0x61, 0x62, 0x63] } rfl rfl

/-- C6. Negative lookup: if a `BorrowedKey` probe's field values differ from
the field values of every `OwnedKey` in the container, membership is
reported false. -/
theorem negative_lookup (s : List OwnedKey) (b : BorrowedKey)
    (h : ∀ o ∈ s, o.s ≠ b.s ∨ o.bytes ≠ b.bytes) :
    containsDyn s b.toDyn = false := by
  cases hc : containsDyn s b.toDyn with
  | false => rfl
  | true =>
    exfalso
    obtain ⟨x, hx, hm⟩ := List.any_eq_true.mp hc
    obtain ⟨h1, h2⟩ := (probeMatch_iff x b).mp hm
    rcases h x hx with h' | h'
    · exact h' h1.symm
    · exact h' h2.symm

/-- C6 witness: after inserting only `{s:"foo", bytes:[0x61,0x62,0x63]}`,
querying with `{s:"foo", bytes:[0x61,0x62]}` returns false. -/
theorem negative_lookup_witness :
    containsDyn (insertKey [] { s := "foo", bytes := [0x61, 0x62, 0x63] })
      (BorrowedKey.toDyn { s := "foo", bytes := [0x61, 0x62] }) = false :=
  negative_lookup
    (insertKey [] { s := "foo", bytes := [0x61, 0x62, 0x63] })
    { s := "foo", bytes := [0x61, 0x62] } (by decide)

/-- C9. Totality: the only operation in the core API whose result type even
admits absence is `partial_cmp`, and it returns `some` ordering for all
inputs on every shape (owned, borrowed, erased), including empty text and
empty byte sequences; every other operation is a total function by
construction in this embedding. -/
theorem total_operations :
    (∀ o1 o2 : OwnedKey, (OwnedKey.partialCmp o1 o2).isSome = true) ∧
    (∀ b1 b2 : BorrowedKey, (BorrowedKey.partialCmp b1 b2).isSome = true) ∧
    (∀ d1 d2 : DynKey, (DynKey.partialCmp d1 d2).isSome = true) := by
  refine ⟨fun o1 o2 => ?_, fun b1 b2 => ?_, fun d1 d2 => ?_⟩
  · unfold OwnedKey.partialCmp
    cases strCmp o1.s o2.s <;> rfl
  · unfold BorrowedKey.partialCmp
    cases strCmp b1.s b2.s <;> rfl
  · unfold DynKey.partialCmp BorrowedKey.partialCmp
    cases strCmp d1.key.s d2.key.s <;> rfl

/-- C10. Cross-shape equality characterization: the erased-view equality
between an `OwnedKey` and a `BorrowedKey` holds exactly when the borrowed
probe's text and byte contents equal the owned fields' contents, and
container lookup with a borrowed probe decides exactly that predicate over
the stored elements. -/
theorem cross_shape_eq_characterization :
    (∀ (o : OwnedKey) (b : BorrowedKey),
      DynKey.beq o.toDyn b.toDyn = true ↔ (b.s = o.s ∧ b.bytes = o.bytes)) ∧
    (∀ (s : List OwnedKey) (b : BorrowedKey),
      containsDyn s b.toDyn = true ↔
        ∃ o ∈ s, b.s = o.s ∧ b.bytes = o.bytes) := by
  refine ⟨dynBeq_toDyn_iff, fun s b => ?_⟩
  unfold containsDyn
  rw [List.any_eq_true]
  constructor
  · rintro ⟨x, hx, hm⟩
    exact ⟨x, hx, (probeMatch_iff x b).mp hm⟩
  · rintro ⟨x, hx, hf⟩
    exact ⟨x, hx, (probeMatch_iff x b).mpr hf⟩
